import Mathlib

/-!
Verification of the go-llm execution core against its natural-language
specification.  The Go source is shallowly embedded: pure functions become
Lean functions over `Rat` (Go `float64` and `time.Duration` arithmetic is
modelled as exact rational arithmetic), `Int` (Go `int`), and `String`;
fallible calls return `Except`; the stateful executors are modelled by
explicit state passing.  Contexts (`context.Context`) are taken to be
never cancelled except where a claim is about cancellation, in which case
cancellation is part of the modelled schedule.
-/

namespace GoLLM

/-- An error value as the retry classifier can observe it: its rendered
message (`err.Error()`), and, when the dynamic type is `*ProviderError`,
the `Code` field.  `ProviderError`'s own `Error` rendering is irrelevant
to the classifier beyond the message string, which we carry as data. -/
structure GoError where
  message : String
  providerCode : Option String
deriving DecidableEq

/-- Does the character list start with the given pattern. -/
def listStartsWith : List Char → List Char → Bool
  | _, [] => true
  | [], _ :: _ => false
  | a :: as, b :: bs => a = b && listStartsWith as bs

/-- Does the pattern occur contiguously in the character list. -/
def listContainsSub (s sub : List Char) : Bool :=
  match s with
  | [] => sub = []
  | _ :: rest => listStartsWith s sub || listContainsSub rest sub

/-- `strings.Contains(s, sub)`: `sub` occurs as a contiguous substring. -/
def strContains (s sub : String) : Bool :=
  listContainsSub s.toList sub.toList

/-- `strings.ToLower` (the messages and configured substrings in this
code base are ASCII, for which `Char.toLower` agrees with Go). -/
def goToLower (s : String) : String :=
  String.mk (s.toList.map Char.toLower)

/-- Digit-string parser used by `goAtoi`. -/
def parseDigits (l : List Char) : Option Nat :=
  if l = [] then none
  else if l.all Char.isDigit then
    some (l.foldl (fun acc c => 10 * acc + (c.toNat - 48)) 0)
  else none

/-- `strconv.Atoi`: optional sign followed by decimal digits
(overflow, which cannot occur for status codes, is not modelled). -/
def goAtoi (s : String) : Option Int :=
  match s.toList with
  | '+' :: rest => (parseDigits rest).map (fun n => (n : Int))
  | '-' :: rest => (parseDigits rest).map (fun n => -(n : Int))
  | l => (parseDigits l).map (fun n => (n : Int))

/-- `RetryConfig` (retry.go).  Durations are in nanoseconds. -/
structure RetryConfig where
  maxRetries : Int
  initialDelay : Rat
  maxDelay : Rat
  multiplier : Rat
  jitter : Rat
  retryOnStatus : List Int
  retryOnErrors : List String
deriving DecidableEq

/-- `DefaultRetryConfig` (retry.go): 3 retries, 1s initial delay, 60s cap,
multiplier 2.0, jitter 0.1, statuses 429/500/502/503/504 and the six
default transient substrings. -/
def defaultRetryConfig : RetryConfig :=
  { maxRetries := 3
    initialDelay := 1000000000
    maxDelay := 60000000000
    multiplier := 2
    jitter := 1/10
    retryOnStatus := [429, 500, 502, 503, 504]
    retryOnErrors := ["connection reset", "connection refused", "timeout",
                      "temporary failure", "rate limit", "overloaded"] }

/-- `NoRetryConfig` (retry.go): zero-valued config apart from MaxRetries 0. -/
def noRetryConfig : RetryConfig :=
  { maxRetries := 0, initialDelay := 0, maxDelay := 0, multiplier := 0,
    jitter := 0, retryOnStatus := [], retryOnErrors := [] }

/-- `shouldRetry` (retry.go): lower-case the rendered message, then check,
in order, (a) `"[d]"`, `"status d"` or the bare digits `"d"` for each
configured status `d`; (b) each configured substring, lower-cased;
(c) a `*ProviderError` whose `Code` parses to a configured status. -/
def shouldRetry (config : Option RetryConfig) (err : Option GoError) : Bool :=
  match config, err with
  | none, _ => false
  | _, none => false
  | some cfg, some e =>
    let errStr := goToLower e.message
    (cfg.retryOnStatus.any (fun status =>
        strContains errStr ("[" ++ toString status ++ "]")
        || strContains errStr ("status " ++ toString status)
        || strContains errStr (toString status)))
    || (cfg.retryOnErrors.any (fun sub => strContains errStr (goToLower sub)))
    || (match e.providerCode with
        | some codeStr =>
          match goAtoi codeStr with
          | some code => cfg.retryOnStatus.any (fun status => code = status)
          | none => false
        | none => false)

/-- The retry classifier exactly as the specification words it (for
refinement comparison with `shouldRetry`): (a) a bracketed (`"[d]"`) or
worded (`"status d"`) form of a configured status, (b) a configured
substring case-insensitively, (c) a `ProviderError` whose code parses to a
configured status.  The bare-digits check of the code is absent here. -/
def specShouldRetry (cfg : RetryConfig) (e : GoError) : Bool :=
  let errStr := goToLower e.message
  (cfg.retryOnStatus.any (fun status =>
      strContains errStr ("[" ++ toString status ++ "]")
      || strContains errStr ("status " ++ toString status)))
  || (cfg.retryOnErrors.any (fun sub => strContains errStr (goToLower sub)))
  || (match e.providerCode with
      | some codeStr =>
        match goAtoi codeStr with
        | some code => cfg.retryOnStatus.any (fun status => code = status)
        | none => false
      | none => false)

/-- The spec classifier amended with the bare-digits status check that the
code also performs in its status-code pass. -/
def specShouldRetryAmended (cfg : RetryConfig) (e : GoError) : Bool :=
  let errStr := goToLower e.message
  (cfg.retryOnStatus.any (fun status =>
      strContains errStr ("[" ++ toString status ++ "]")
      || strContains errStr ("status " ++ toString status)
      || strContains errStr (toString status)))
  || (cfg.retryOnErrors.any (fun sub => strContains errStr (goToLower sub)))
  || (match e.providerCode with
      | some codeStr =>
        match goAtoi codeStr with
        | some code => cfg.retryOnStatus.any (fun status => code = status)
        | none => false
      | none => false)

/-- `delay := initial * multiplier^attempt` (retry.go line 99). -/
def backoffRaw (cfg : RetryConfig) (attempt : Nat) : Rat :=
  cfg.initialDelay * cfg.multiplier ^ attempt

/-- The delay after the `MaxDelay` cap (retry.go lines 102-104): the value
of `calculateBackoff` before jitter is applied. -/
def backoffCapped (cfg : RetryConfig) (attempt : Nat) : Rat :=
  if backoffRaw cfg attempt > cfg.maxDelay then cfg.maxDelay
  else backoffRaw cfg attempt

/-- The jitter perturbation (retry.go lines 107-111), with `u` standing
for the `rand.Float64()` draw in `[0,1)`. -/
def jitterTerm (cfg : RetryConfig) (delay u : Rat) : Rat :=
  if cfg.jitter > 0 then
    let jitterRange := delay * cfg.jitter
    u * 2 * jitterRange - jitterRange
  else 0

/-- `calculateBackoff` (retry.go): exponential backoff, capped, jittered,
and, when the result went negative, replaced by `InitialDelay`
(the final truncation to integer nanoseconds is not modelled). -/
def calculateBackoff (config : Option RetryConfig) (attempt : Nat) (u : Rat) : Rat :=
  match config with
  | none => 1000000000
  | some cfg =>
    let delay := backoffCapped cfg attempt
    let delay := delay + jitterTerm cfg delay u
    if delay < 0 then cfg.initialDelay else delay

/-- Outcome of one invocation of the retried operation. -/
inductive AttemptOut (T : Type) where
  | ok (t : T)
  | fail (e : GoError)
deriving DecidableEq

/-- The error side of `WithRetry`'s result: either the operation's own
error, returned verbatim because it was classified non-retryable, or the
wrapping `fmt.Errorf("max retries (%d) exceeded: %w", ...)` error. -/
inductive RetryError where
  | plain (e : GoError)
  | maxRetriesExceeded (n : Int) (last : Option GoError)
deriving DecidableEq

/-- The loop of `WithRetry` (retry.go lines 176-225).  `fn i` is the
outcome of the `i`-th invocation of the operation; the context is never
cancelled.  The fuel argument equals `maxRetries + 1 - attempt` clipped at
zero, so running out of fuel is exactly the loop condition
`attempt <= MaxRetries` failing, which falls through to the final
max-retries-exceeded return with the last recorded error.  Returns the
number of invocations of `fn` together with the result. -/
def withRetryAux {T : Type} (cfg : RetryConfig) (fn : Nat → AttemptOut T) :
    Nat → Nat → Option GoError → Nat × Except RetryError T
  | _, 0, lastErr => (0, .error (.maxRetriesExceeded cfg.maxRetries lastErr))
  | attempt, fuel + 1, _ =>
    match fn attempt with
    | .ok t => (1, .ok t)
    | .fail e =>
      if shouldRetry (some cfg) (some e) = false then
        (1, .error (.plain e))
      else if cfg.maxRetries ≤ (attempt : Int) then
        (1, .error (.maxRetriesExceeded cfg.maxRetries (some e)))
      else
        let r := withRetryAux cfg fn (attempt + 1) fuel (some e)
        (r.1 + 1, r.2)

/-- `WithRetry` (retry.go): a `nil` config is replaced by
`DefaultRetryConfig()` before the loop runs. -/
def withRetry {T : Type} (config : Option RetryConfig) (fn : Nat → AttemptOut T) :
    Nat × Except RetryError T :=
  let cfg := config.getD defaultRetryConfig
  withRetryAux cfg fn 0 (cfg.maxRetries + 1).toNat none

/-- `TokenBucket` (rate limiter): tokens-per-second rate, capacity,
current token level and last-refill timestamp (in seconds). -/
structure TokenBucket where
  rate : Rat
  capacity : Rat
  tokens : Rat
  lastRefill : Rat
deriving DecidableEq

/-- `NewLimiter(requests, interval)` constructed at time `now`: rate is
requests per interval second, capacity and initial level are `requests`. -/
def newLimiter (requests : Int) (intervalSeconds : Rat) (now : Rat) : TokenBucket :=
  { rate := (requests : Rat) / intervalSeconds
    capacity := (requests : Rat)
    tokens := (requests : Rat)
    lastRefill := now }

/-- `TokenBucket.Allow` called at time `now`: refill lazily by
elapsed × rate, cap at capacity, then consume one token exactly when at
least one whole token is available. -/
def TokenBucket.allow (tb : TokenBucket) (now : Rat) : TokenBucket × Bool :=
  let elapsed := now - tb.lastRefill
  let tokens := tb.tokens + elapsed * tb.rate
  let tokens := if tokens > tb.capacity then tb.capacity else tokens
  if 1 ≤ tokens then
    ({ tb with tokens := tokens - 1, lastRefill := now }, true)
  else
    ({ tb with tokens := tokens, lastRefill := now }, false)

/-- The token level after the lazy refill-and-cap step of `Allow`,
before any consumption. -/
def refilledLevel (tb : TokenBucket) (now : Rat) : Rat :=
  if tb.tokens + (now - tb.lastRefill) * tb.rate > tb.capacity then tb.capacity
  else tb.tokens + (now - tb.lastRefill) * tb.rate

/-- The bucket states and results observed over a sequence of `Allow`
calls at the given times. -/
def allowTrace : TokenBucket → List Rat → List (TokenBucket × Bool)
  | _, [] => []
  | tb, t :: ts => tb.allow t :: allowTrace (tb.allow t).1 ts

/-- `TokenBucket.Wait` over the sequence of times at which its loop
iterations run: it calls `Allow` repeatedly (sleeping in between, modelled
only through the time sequence) and returns as soon as one `Allow`
succeeds; `none` means the call times were exhausted with the loop still
spinning. -/
def TokenBucket.wait : TokenBucket → List Rat → Option (TokenBucket × Rat)
  | _, [] => none
  | tb, t :: ts =>
    if (tb.allow t).2 then some ((tb.allow t).1, t)
    else TokenBucket.wait (tb.allow t).1 ts

/-- `ProviderResponse` restricted to the fields the streaming decoders
and executors populate (tool calls and vendor-specific extended output
play no part in the claims below). -/
structure ProviderResponse where
  content : String
  promptTokens : Int
  completionTokens : Int
  totalTokens : Int
deriving DecidableEq

/-- Concatenation of a list of strings in order. -/
def strJoin : List String → String
  | [] => ""
  | s :: rest => s ++ strJoin rest

/-- One line of an OpenRouter SSE stream as `OpenRouterProvider.SendStream`
observes it after `TrimSpace`: it lacks the `"data: "` prefix, or its data
payload is the `"[DONE]"` sentinel, fails `json.Unmarshal`, or parses to a
chunk carrying each choice's `Delta.Content`. -/
inductive ORLine where
  | noData
  | doneSentinel
  | malformed
  | chunk (choices : List String)

/-- The SSE decode loop of `OpenRouterProvider.SendStream`: skip
non-data and unparsable lines, stop at the sentinel, and for a chunk with
a non-empty choice list write `Choices[0].Delta.Content` to the running
content and hand the same string to the callback.  Returns the callback
arguments in delivery order and the accumulated content. -/
def orStreamLoop : String → List String → List ORLine → List String × String
  | acc, cbs, [] => (cbs, acc)
  | acc, cbs, .noData :: ls => orStreamLoop acc cbs ls
  | acc, cbs, .doneSentinel :: _ => (cbs, acc)
  | acc, cbs, .malformed :: ls => orStreamLoop acc cbs ls
  | acc, cbs, .chunk [] :: ls => orStreamLoop acc cbs ls
  | acc, cbs, .chunk (c :: _) :: ls => orStreamLoop (acc ++ c) (cbs ++ [c]) ls

/-- `OpenRouterProvider.SendStream` after a 200 response: the decode loop
followed by the streaming token estimate `len(content) / 4` (byte
length). -/
def orSendStream (lines : List ORLine) : List String × ProviderResponse :=
  let r := orStreamLoop "" [] lines
  (r.1, { content := r.2, promptTokens := 0,
          completionTokens := ((r.2.utf8ByteSize / 4 : Nat) : Int),
          totalTokens := ((r.2.utf8ByteSize / 4 : Nat) : Int) })

/-- One line of an Ollama NDJSON stream as `OllamaProvider.SendStream`
observes it: either `json.Unmarshal` fails, or it parses to a chunk with
`Message.Content`, the `Done` flag and the two eval counts. -/
inductive OllamaLine where
  | malformed
  | chunk (content : String) (done : Bool) (promptEvalCount evalCount : Int)

/-- The NDJSON decode loop of `OllamaProvider.SendStream`: skip
unparsable lines; for a chunk, first append-and-deliver a non-empty
content, then stop if the done flag is set, recording the eval counts
(zero when the stream ends without a done chunk). -/
def ollamaStreamLoop : String → List String → List OllamaLine →
    List String × String × Int × Int
  | acc, cbs, [] => (cbs, acc, 0, 0)
  | acc, cbs, .malformed :: ls => ollamaStreamLoop acc cbs ls
  | acc, cbs, .chunk c d pe ec :: ls =>
    if c ≠ "" then
      (if d then (cbs ++ [c], acc ++ c, pe, ec)
       else ollamaStreamLoop (acc ++ c) (cbs ++ [c]) ls)
    else
      (if d then (cbs, acc, pe, ec) else ollamaStreamLoop acc cbs ls)

/-- `OllamaProvider.SendStream` after a 200 response: the decode loop,
with prompt/completion token counts from the done chunk and their sum as
the total. -/
def ollamaSendStream (lines : List OllamaLine) : List String × ProviderResponse :=
  let r := ollamaStreamLoop "" [] lines
  (r.1, { content := r.2.1, promptTokens := r.2.2.1,
          completionTokens := r.2.2.2,
          totalTokens := r.2.2.1 + r.2.2.2 })

/-- One line of an Anthropic SSE stream as `AnthropicProvider.SendStream`
observes it after `TrimSpace`: it lacks the `"data: "` prefix, fails
`json.Unmarshal`, or parses to an event with a type, a delta type and a
delta text. -/
inductive AnthLine where
  | noData
  | malformed
  | event (eventType deltaType text : String)

/-- The event-typed SSE decode loop of `AnthropicProvider.SendStream`:
skip non-data and unparsable lines; append-and-deliver the delta text of
a `content_block_delta` event with a `text_delta` delta; stop at a
`message_stop` event. -/
def anthStreamLoop : String → List String → List AnthLine → List String × String
  | acc, cbs, [] => (cbs, acc)
  | acc, cbs, .noData :: ls => anthStreamLoop acc cbs ls
  | acc, cbs, .malformed :: ls => anthStreamLoop acc cbs ls
  | acc, cbs, .event ty dt tx :: ls =>
    if ty = "content_block_delta" ∧ dt = "text_delta" then
      (if ty = "message_stop" then (cbs ++ [tx], acc ++ tx)
       else anthStreamLoop (acc ++ tx) (cbs ++ [tx]) ls)
    else
      (if ty = "message_stop" then (cbs, acc) else anthStreamLoop acc cbs ls)

/-- `AnthropicProvider.SendStream` after a 200 response: the decode loop
followed by the streaming token estimate `len(content) / 4` (byte
length). -/
def anthSendStream (lines : List AnthLine) : List String × ProviderResponse :=
  let r := anthStreamLoop "" [] lines
  (r.1, { content := r.2, promptTokens := 0,
          completionTokens := ((r.2.utf8ByteSize / 4 : Nat) : Int),
          totalTokens := ((r.2.utf8ByteSize / 4 : Nat) : Int) })

/-- `ResponseMeta` of `Builder.SendWithMeta` restricted to the fields the
fallback claims concern (latency, a wall-clock duration, and the retry
counter are not modelled). -/
structure ResponseMeta where
  content : String
  error : Option GoError
  model : String
  tokens : Int
deriving DecidableEq

/-- The per-model loop of `Builder.SendWithMeta` (the fallback chain):
models are tried in order with the same message history; a failing model
records `lastErr` and reports its error through `invokeOnError` (the hook
log); the first success stops the loop.  `call m` is the outcome of the
provider call for model `m`. -/
def swmLoop (call : String → Except GoError ProviderResponse) :
    List String → Option GoError → List (String × GoError) →
    Option (String × ProviderResponse) × Option GoError × List (String × GoError)
  | [], lastErr, log => (none, lastErr, log)
  | m :: ms, lastErr, log =>
    match call m with
    | .ok r => (some (m, r), lastErr, log)
    | .error e => swmLoop call ms (some e) (log ++ [(m, e)])

/-- `Builder.SendWithMeta` over the model list `primary :: fallbacks`
(no validators configured, so a successful provider call is returned
directly): the first success yields its content and model; when every
model fails the meta carries the last error and the primary model.
Returns the meta and the `OnError` hook invocation log. -/
def sendWithMeta (primary : String) (fallbacks : List String)
    (call : String → Except GoError ProviderResponse) :
    ResponseMeta × List (String × GoError) :=
  match swmLoop call (primary :: fallbacks) none [] with
  | (some (m, r), _, log) =>
    ({ content := r.content, error := none, model := m, tokens := r.totalTokens }, log)
  | (none, lastErr, log) =>
    ({ content := "", error := lastErr, model := primary, tokens := 0 }, log)

/-- The failing models of a list paired with their errors, in order. -/
def errLog (call : String → Except GoError ProviderResponse) :
    List String → List (String × GoError)
  | [] => []
  | m :: ms =>
    match call m with
    | .ok _ => errLog call ms
    | .error e => (m, e) :: errLog call ms

/-- A concrete fallback scenario: model "A" always fails, model "B"
succeeds. -/
def fallbackDemoCall (m : String) : Except GoError ProviderResponse :=
  if m = "A" then .error ⟨"A down", none⟩
  else .ok { content := "hi from B", promptTokens := 0, completionTokens := 0,
             totalTokens := 7 }

/-- A part of a multimodal message (types.go). -/
structure ContentPart where
  partType : String
  text : String
  imageURL : Option (String × String)
  document : Option (String × String × String × String)
deriving DecidableEq

/-- A message's `Content` field (`any` in Go): a plain string or a list
of typed parts. -/
inductive MessageContent where
  | text (s : String)
  | parts (ps : List ContentPart)
deriving DecidableEq

/-- A tool call carried by a message (types.go), with the nested
`Function` struct flattened into name and argument fields. -/
structure ToolCall where
  id : String
  callType : String
  functionName : String
  functionArguments : String
deriving DecidableEq

/-- A chat message (types.go). -/
structure Message where
  role : String
  content : MessageContent
  toolCalls : List ToolCall
  toolCallID : String
deriving DecidableEq

/-- `SendOptions` (types.go): optional temperature and reasoning level. -/
structure SendOptions where
  temperature : Option Rat
  thinking : String
deriving DecidableEq

/-- The data `cacheKey` (response caching) serialises: exactly the model,
the full message list, the temperature and the reasoning level.  The Go
function JSON-marshals this struct and returns the hex SHA-256 digest of
the bytes; hex∘SHA-256∘marshal is one fixed deterministic function, so
modelling the key as the serialised data itself preserves equality of
keys for equal inputs (collisions would only merge distinct inputs,
which no claim relies on). -/
structure CacheKeyData where
  model : String
  messages : List Message
  temp : Option Rat
  thinking : String
deriving DecidableEq

/-- `cacheKey(model, messages, opts)`. -/
def cacheKey (model : String) (messages : List Message) (opts : SendOptions) :
    CacheKeyData :=
  { model := model, messages := messages, temp := opts.temperature,
    thinking := opts.thinking }

/-- Process-wide cache state: the `Cache` switch and the entries map
(an association list looked up on the first matching key; a Go map write
replaces the binding, which prepending models observationally). -/
structure CacheState where
  enabled : Bool
  entries : List (CacheKeyData × String)

/-- First-match association-list lookup (the cache map read). -/
def lookupCache : List (CacheKeyData × String) → CacheKeyData → Option String
  | [], _ => none
  | (k, v) :: rest, key => if k = key then some v else lookupCache rest key

/-- `getCached`: nothing when caching is disabled, else a map lookup
under the request's key. -/
def getCached (st : CacheState) (model : String) (messages : List Message)
    (opts : SendOptions) : Option String :=
  if st.enabled = false then none
  else lookupCache st.entries (cacheKey model messages opts)

/-- `setCached`: a no-op when caching is disabled, else a map write under
the request's key. -/
def setCached (st : CacheState) (model : String) (messages : List Message)
    (opts : SendOptions) (response : String) : CacheState :=
  if st.enabled = false then st
  else { st with entries := (cacheKey model messages opts, response) :: st.entries }

/-- Legacy `Send` (client.go): consult the cache first and return a hit
without touching the provider; on a miss invoke the provider once,
caching the content on success.  Returns the result, the new cache state
and the number of provider invocations (the global rate limiter, unset
here, is a no-op). -/
def send (st : CacheState)
    (provider : String → List Message → SendOptions → Except GoError ProviderResponse)
    (model : String) (messages : List Message) (opt : SendOptions) :
    Except GoError String × CacheState × Nat :=
  match getCached st model messages opt with
  | some cached => (.ok cached, st, 0)
  | none =>
    match provider model messages opt with
    | .error e => (.error e, st, 1)
    | .ok resp => (.ok resp.content, setCached st model messages opt resp.content, 1)

/-- A provider stub that always answers "hello". -/
def cacheDemoProvider (_ : String) (_ : List Message) (_ : SendOptions) :
    Except GoError ProviderResponse :=
  .ok { content := "hello", promptTokens := 0, completionTokens := 0, totalTokens := 0 }

/-- `BatchResult` (batch.go) without the latency field. -/
structure BatchResultM where
  index : Int
  content : String
  error : Option GoError
  model : String
  tokens : Int
deriving DecidableEq

/-- The zero value of `BatchResult`: what a result slot holds when no
goroutine ever writes it. -/
def zeroBatchResult : BatchResultM :=
  { index := 0, content := "", error := none, model := "", tokens := 0 }

/-- What the goroutine of one submitted operation in `BatchBuilder.Do`
did under a given concurrent schedule: returned at the `stopped` check
before trying to acquire a permit, observed `ctx.Done()` while waiting on
the semaphore, or ran `SendWithMeta` to completion with the given
outcome. -/
inductive OpFate where
  | sawStopped
  | cancelledAtSem (ctxErr : GoError)
  | ran (meta : ResponseMeta)
deriving DecidableEq

/-- The final value of `results[idx]` for one goroutine of
`BatchBuilder.Do`: the `sawStopped` path returns without writing the
slot, leaving the zero value; the semaphore-cancellation path writes
index, context error and the builder's model; a completed run writes the
full result. -/
def batchSlot (idx : Int) (model : String) : OpFate → BatchResultM
  | .sawStopped => zeroBatchResult
  | .cancelledAtSem e =>
    { zeroBatchResult with index := idx, error := some e, model := model }
  | .ran meta =>
    { index := idx, content := meta.content, error := meta.error,
      model := meta.model, tokens := meta.tokens }

/-- `BatchBuilder.Do` over a schedule assigning each submitted operation
(its builder's model paired with its goroutine's fate): the results slice
is pre-sized to the number of operations, each slot written only by its
own goroutine (nil, i.e. the empty list, for an empty batch). -/
def batchDo (ops : List (String × OpFate)) : List BatchResultM :=
  ops.enum.map (fun p => batchSlot (p.1 : Int) p.2.1 p.2.2)

/-- A schedule is realizable under the given stop-on-error flag: a
goroutine can observe the stop flag or a cancelled shared context only
when stop-on-error is set and some operation completed with an error
(`stopped` is set and `cancel()` called only under those conditions in
`Do`). -/
def scheduleValid (stopOnError : Bool) (ops : List (String × OpFate)) : Prop :=
  ∀ p ∈ ops, (p.2 = OpFate.sawStopped ∨ ∃ e, p.2 = OpFate.cancelledAtSem e) →
    stopOnError = true
    ∧ ∃ q ∈ ops, ∃ meta, q.2 = OpFate.ran meta ∧ meta.error ≠ none

/-- Invocation-count lemma for an operation that always fails with a
retryable error: each unit of fuel is consumed by exactly one invocation
while `attempt + fuel = maxRetries + 1`. -/
theorem withRetryAux_count {T : Type} (cfg : RetryConfig) (fn : Nat → AttemptOut T)
    (hfail : ∀ i, ∃ e, fn i = .fail e ∧ shouldRetry (some cfg) (some e) = true) :
    ∀ (fuel attempt : Nat) (lastErr : Option GoError),
      (attempt : Int) + (fuel : Int) = cfg.maxRetries + 1 →
      (withRetryAux cfg fn attempt fuel lastErr).1 = fuel := by
  intro fuel
  induction fuel with
  | zero => intro attempt lastErr _; rfl
  | succ n ih =>
    intro attempt lastErr hsum
    obtain ⟨e, hfe, hre⟩ := hfail attempt
    unfold withRetryAux
    rw [hfe]
    simp only [hre]
    by_cases hn : n = 0
    · subst hn
      have hle : cfg.maxRetries ≤ (attempt : Int) := by push_cast at hsum; omega
      simp [hle]
    · have hlt : ¬ cfg.maxRetries ≤ (attempt : Int) := by push_cast at hsum; omega
      have hrec := ih (attempt + 1) (some e) (by push_cast at hsum ⊢; omega)
      simp [hlt, hrec]

/-- The cap step writes `backoffCapped` as a two-sided minimum. -/
theorem backoffCapped_eq_min (cfg : RetryConfig) (a : Nat) :
    backoffCapped cfg a = min cfg.maxDelay (backoffRaw cfg a) := by
  unfold backoffCapped
  rcases le_or_lt (backoffRaw cfg a) cfg.maxDelay with h | h
  · rw [if_neg (not_lt.mpr h), min_eq_right h]
  · rw [if_pos h, min_eq_left h.le]

/-- The pre-jitter delay is non-negative for non-negative configuration. -/
theorem backoffCapped_nonneg (cfg : RetryConfig) (a : Nat)
    (hm : 1 ≤ cfg.multiplier) (hi : 0 ≤ cfg.initialDelay) (hx : 0 ≤ cfg.maxDelay) :
    0 ≤ backoffCapped cfg a := by
  rw [backoffCapped_eq_min]
  exact le_min hx (mul_nonneg hi (pow_nonneg (le_trans zero_le_one hm) a))

/-- C1: for every RetryConfig with MaxRetries = N (N ≥ 0) and every
operation that always fails with an error classified as transient,
WithRetry invokes the operation exactly N + 1 times and never more; with
MaxRetries = 0 it is invoked exactly once. -/
theorem withRetry_transient_exact_attempts {T : Type} (cfg : RetryConfig)
    (fn : Nat → AttemptOut T) (N : Nat) (hN : cfg.maxRetries = (N : Int))
    (hfail : ∀ i, ∃ e, fn i = .fail e ∧ shouldRetry (some cfg) (some e) = true) :
    (withRetry (some cfg) fn).1 = N + 1 := by
  show (withRetryAux ((some cfg).getD defaultRetryConfig) fn 0
      ((((some cfg).getD defaultRetryConfig).maxRetries + 1)).toNat none).1 = N + 1
  have hfuel : (cfg.maxRetries + 1).toNat = N + 1 := by rw [hN]; omega
  rw [Option.getD_some, hfuel]
  exact withRetryAux_count cfg fn hfail (N + 1) 0 none (by rw [hN]; push_cast; ring)

/-- Witness for C1 at MaxRetries = 0 with an always-"timeout" operation:
exactly one invocation. -/
theorem withRetry_transient_exact_attempts_witness :
    ({ defaultRetryConfig with maxRetries := 0 } : RetryConfig).maxRetries = ((0 : Nat) : Int)
    ∧ (withRetry (some { defaultRetryConfig with maxRetries := 0 })
        (fun _ => AttemptOut.fail (T := Unit) ⟨"timeout", none⟩)).1 = 0 + 1 :=
  ⟨by decide, withRetry_transient_exact_attempts _ _ 0 (by decide)
    (fun _ => ⟨⟨"timeout", none⟩, rfl, by decide⟩)⟩

/-- C2 counterexample: the message "got 429" contains neither a bracketed
nor a worded form of status 429, no configured substring, and is not a
ProviderError, so by the claim it is terminal and the operation would be
invoked exactly once; the code's bare-digits check classifies it as
retryable and WithRetry under the default config invokes the operation
four times. -/
theorem shouldRetry_spec_classifier_counterexample :
    shouldRetry (some defaultRetryConfig) (some ⟨"got 429", none⟩) = true
    ∧ specShouldRetry defaultRetryConfig ⟨"got 429", none⟩ = false
    ∧ (withRetry (some defaultRetryConfig)
        (fun _ => AttemptOut.fail (T := Unit) ⟨"got 429", none⟩)).1 = 4 :=
  ⟨by decide, by decide, by decide⟩

/-- C2 amended: the classifier matches the spec's checks once check (a)
also admits the bare decimal digits of a configured status code; and when
no check matches (and MaxRetries ≥ 0) WithRetry returns the error
immediately with the operation invoked exactly once. -/
theorem shouldRetry_classifier_amended {T : Type} (cfg : RetryConfig) (e : GoError)
    (fn : Nat → AttemptOut T) :
    shouldRetry (some cfg) (some e) = specShouldRetryAmended cfg e
    ∧ (fn 0 = .fail e → shouldRetry (some cfg) (some e) = false →
        0 ≤ cfg.maxRetries → withRetry (some cfg) fn = (1, .error (.plain e))) := by
  constructor
  · rfl
  · intro hf0 hsr hmr
    show withRetryAux ((some cfg).getD defaultRetryConfig) fn 0
        ((((some cfg).getD defaultRetryConfig).maxRetries + 1)).toNat none
      = (1, Except.error (RetryError.plain e))
    rw [Option.getD_some]
    obtain ⟨n, hn⟩ : ∃ n, (cfg.maxRetries + 1).toNat = n + 1 :=
      ⟨(cfg.maxRetries + 1).toNat - 1, by omega⟩
    rw [hn]
    unfold withRetryAux
    rw [hf0]
    simp [hsr]

/-- Witness for the amended C2 at NoRetryConfig and a plain "boom" error:
one invocation, error returned as-is. -/
theorem shouldRetry_classifier_amended_witness :
    shouldRetry (some noRetryConfig) (some ⟨"boom", none⟩) = false
    ∧ withRetry (some noRetryConfig) (fun _ => AttemptOut.fail (T := Unit) ⟨"boom", none⟩)
        = (1, .error (.plain ⟨"boom", none⟩)) :=
  ⟨by decide,
    (shouldRetry_classifier_amended noRetryConfig ⟨"boom", none⟩ _).2 rfl (by decide) (by decide)⟩

/-- C8 counterexample: with Multiplier 1/2 (InitialDelay 2ns, MaxDelay
100ns, no jitter) the pre-jitter delay is 2 at attempt 0 and 1 at
attempt 1, so it is not monotonically non-decreasing in the attempt
number for every RetryConfig. -/
theorem backoff_monotone_counterexample :
    backoffCapped ⟨0, 2, 100, 1/2, 0, [], []⟩ 0 = 2
    ∧ backoffCapped ⟨0, 2, 100, 1/2, 0, [], []⟩ 1 = 1
    ∧ backoffCapped ⟨0, 2, 100, 1/2, 0, [], []⟩ 1
        < backoffCapped ⟨0, 2, 100, 1/2, 0, [], []⟩ 0 := by
  refine ⟨?_, ?_, ?_⟩ <;> norm_num [backoffCapped, backoffRaw]

/-- C8 amended: for configurations with Multiplier ≥ 1, non-negative
InitialDelay and MaxDelay and jitter fraction in [0,1] (as produced by
every constructor and setter of this file), the pre-jitter delay equals
min(maxDelay, initialDelay × multiplier^attempt), is monotonically
non-decreasing in the attempt and never exceeds the max delay; the jitter
perturbation for a uniform draw u ∈ [0,1) is bounded by ± delay × jitter;
and the final delay (clamped, when negative, to InitialDelay) is
non-negative. -/
theorem calculateBackoff_amended (cfg : RetryConfig) (a b : Nat) (u : Rat)
    (hm : 1 ≤ cfg.multiplier) (hi : 0 ≤ cfg.initialDelay) (hx : 0 ≤ cfg.maxDelay)
    (hj : 0 ≤ cfg.jitter) (hj1 : cfg.jitter ≤ 1) (hab : a ≤ b)
    (hu0 : 0 ≤ u) (hu1 : u < 1) :
    backoffCapped cfg a = min cfg.maxDelay (cfg.initialDelay * cfg.multiplier ^ a)
    ∧ backoffCapped cfg a ≤ backoffCapped cfg b
    ∧ backoffCapped cfg a ≤ cfg.maxDelay
    ∧ |jitterTerm cfg (backoffCapped cfg a) u| ≤ backoffCapped cfg a * cfg.jitter
    ∧ calculateBackoff (some cfg) a u
        = backoffCapped cfg a + jitterTerm cfg (backoffCapped cfg a) u
    ∧ 0 ≤ calculateBackoff (some cfg) a u := by
  have hd : 0 ≤ backoffCapped cfg a := backoffCapped_nonneg cfg a hm hi hx
  have hpow : cfg.multiplier ^ a ≤ cfg.multiplier ^ b := pow_le_pow_right₀ hm hab
  have hdj : 0 ≤ backoffCapped cfg a * cfg.jitter := mul_nonneg hd hj
  have hjt : |jitterTerm cfg (backoffCapped cfg a) u|
      ≤ backoffCapped cfg a * cfg.jitter := by
    by_cases hjp : cfg.jitter > 0
    · have hjeq : jitterTerm cfg (backoffCapped cfg a) u
          = u * 2 * (backoffCapped cfg a * cfg.jitter)
            - backoffCapped cfg a * cfg.jitter := by
        unfold jitterTerm
        rw [if_pos hjp]
      rw [hjeq, abs_le]
      constructor
      · nlinarith
      · nlinarith [mul_nonneg (sub_nonneg.mpr hu1.le) hdj]
    · have hjeq : jitterTerm cfg (backoffCapped cfg a) u = 0 := by
        unfold jitterTerm
        rw [if_neg hjp]
      rw [hjeq, abs_zero]
      exact hdj
  have hnn : ¬ backoffCapped cfg a + jitterTerm cfg (backoffCapped cfg a) u < 0 := by
    have hlow := (abs_le.mp hjt).1
    have : backoffCapped cfg a * cfg.jitter ≤ backoffCapped cfg a := by nlinarith
    push_neg
    linarith
  have hclamp : calculateBackoff (some cfg) a u
      = backoffCapped cfg a + jitterTerm cfg (backoffCapped cfg a) u := by
    show (if backoffCapped cfg a + jitterTerm cfg (backoffCapped cfg a) u < 0
        then cfg.initialDelay
        else backoffCapped cfg a + jitterTerm cfg (backoffCapped cfg a) u) = _
    rw [if_neg hnn]
  refine ⟨backoffCapped_eq_min cfg a, ?_, ?_, hjt, hclamp, ?_⟩
  · rw [backoffCapped_eq_min, backoffCapped_eq_min]
    exact min_le_min le_rfl (mul_le_mul_of_nonneg_left hpow hi)
  · rw [backoffCapped_eq_min]
    exact min_le_left _ _
  · rw [hclamp]
    exact le_of_not_lt hnn

/-- Witness for the amended C8 at the default configuration, attempts 0
and 1, uniform draw 1/2. -/
theorem calculateBackoff_amended_witness :
    (0 : Rat) ≤ 1/2
    ∧ (backoffCapped defaultRetryConfig 0
          = min defaultRetryConfig.maxDelay
              (defaultRetryConfig.initialDelay * defaultRetryConfig.multiplier ^ 0)
        ∧ backoffCapped defaultRetryConfig 0 ≤ backoffCapped defaultRetryConfig 1
        ∧ backoffCapped defaultRetryConfig 0 ≤ defaultRetryConfig.maxDelay
        ∧ |jitterTerm defaultRetryConfig (backoffCapped defaultRetryConfig 0) (1/2)|
            ≤ backoffCapped defaultRetryConfig 0 * defaultRetryConfig.jitter
        ∧ calculateBackoff (some defaultRetryConfig) 0 (1/2)
            = backoffCapped defaultRetryConfig 0
              + jitterTerm defaultRetryConfig (backoffCapped defaultRetryConfig 0) (1/2)
        ∧ 0 ≤ calculateBackoff (some defaultRetryConfig) 0 (1/2)) :=
  ⟨by norm_num,
    calculateBackoff_amended defaultRetryConfig 0 1 (1/2)
      (by norm_num [defaultRetryConfig]) (by norm_num [defaultRetryConfig])
      (by norm_num [defaultRetryConfig]) (by norm_num [defaultRetryConfig])
      (by norm_num [defaultRetryConfig]) (by norm_num)
      (by norm_num) (by norm_num)⟩

/-- C10: a nil RetryConfig is replaced by the default configuration, whose
fields are MaxRetries 3, InitialDelay 1s, MaxDelay 60s, multiplier 2.0,
jitter 0.1, transient statuses 429/500/502/503/504 and the default
transient substrings; a transiently always-failing operation is therefore
invoked 3 + 1 times, with strictly positive backoff delays, rather than
attempted exactly once. -/
theorem withRetry_nil_defaults {T : Type} (fn : Nat → AttemptOut T)
    (hfail : ∀ i, ∃ e, fn i = .fail e
        ∧ shouldRetry (some defaultRetryConfig) (some e) = true) :
    withRetry none fn = withRetry (some defaultRetryConfig) fn
    ∧ (withRetry none fn).1 = 3 + 1
    ∧ defaultRetryConfig.maxRetries = 3
    ∧ defaultRetryConfig.initialDelay = 1000000000
    ∧ defaultRetryConfig.maxDelay = 60000000000
    ∧ defaultRetryConfig.multiplier = 2
    ∧ defaultRetryConfig.jitter = 1/10
    ∧ defaultRetryConfig.retryOnStatus = [429, 500, 502, 503, 504]
    ∧ defaultRetryConfig.retryOnErrors = ["connection reset", "connection refused",
        "timeout", "temporary failure", "rate limit", "overloaded"]
    ∧ (∀ a : Nat, 0 < backoffCapped defaultRetryConfig a) := by
  refine ⟨rfl, ?_, rfl, rfl, rfl, rfl, rfl, rfl, rfl, ?_⟩
  · show (withRetryAux defaultRetryConfig fn 0
        ((defaultRetryConfig.maxRetries + 1)).toNat none).1 = 3 + 1
    exact withRetryAux_count defaultRetryConfig fn hfail 4 0 none (by norm_num [defaultRetryConfig])
  · intro a
    rw [backoffCapped_eq_min]
    refine lt_min (by norm_num [defaultRetryConfig]) ?_
    show (0 : Rat) < defaultRetryConfig.initialDelay * defaultRetryConfig.multiplier ^ a
    have h2 : (0 : Rat) < 2 ^ a := pow_pos (by norm_num) a
    show (0 : Rat) < 1000000000 * 2 ^ a
    positivity

/-- Witness for C10: an always-"timeout" operation under a nil config is
invoked four times. -/
theorem withRetry_nil_defaults_witness :
    (withRetry (none : Option RetryConfig)
      (fun _ => AttemptOut.fail (T := Unit) ⟨"timeout", none⟩)).1 = 3 + 1 :=
  (withRetry_nil_defaults _ (fun _ => ⟨⟨"timeout", none⟩, rfl, by decide⟩)).2.1

/-- Unfolding of `Allow` through `refilledLevel`. -/
theorem TokenBucket.allow_eq (tb : TokenBucket) (now : Rat) :
    tb.allow now =
      if 1 ≤ refilledLevel tb now then
        ({ tb with tokens := refilledLevel tb now - 1, lastRefill := now }, true)
      else
        ({ tb with tokens := refilledLevel tb now, lastRefill := now }, false) := rfl

/-- The refill step never lifts the level above capacity. -/
theorem refilledLevel_le_capacity (tb : TokenBucket) (now : Rat)
    (hhi : tb.tokens ≤ tb.capacity) : refilledLevel tb now ≤ tb.capacity := by
  unfold refilledLevel
  by_cases h : tb.tokens + (now - tb.lastRefill) * tb.rate > tb.capacity
  · rw [if_pos h]
  · rw [if_neg h]
    exact not_lt.mp h

/-- The refill step never drops the level below its current value when
time moves forward and the rate is non-negative. -/
theorem refilledLevel_nonneg (tb : TokenBucket) (now : Rat)
    (hrate : 0 ≤ tb.rate) (hlo : 0 ≤ tb.tokens) (hhi : tb.tokens ≤ tb.capacity)
    (hnow : tb.lastRefill ≤ now) : 0 ≤ refilledLevel tb now := by
  unfold refilledLevel
  have helap : 0 ≤ (now - tb.lastRefill) * tb.rate :=
    mul_nonneg (by linarith) hrate
  by_cases h : tb.tokens + (now - tb.lastRefill) * tb.rate > tb.capacity
  · rw [if_pos h]
    linarith
  · rw [if_neg h]
    linarith

/-- One `Allow` call preserves the level bounds and leaves rate and
capacity unchanged, stamping the refill time. -/
theorem TokenBucket.allow_preserves (tb : TokenBucket) (now : Rat)
    (hrate : 0 ≤ tb.rate) (hlo : 0 ≤ tb.tokens) (hhi : tb.tokens ≤ tb.capacity)
    (hnow : tb.lastRefill ≤ now) :
    0 ≤ (tb.allow now).1.tokens
    ∧ (tb.allow now).1.tokens ≤ (tb.allow now).1.capacity
    ∧ (tb.allow now).1.capacity = tb.capacity
    ∧ (tb.allow now).1.rate = tb.rate
    ∧ (tb.allow now).1.lastRefill = now := by
  have hcap := refilledLevel_le_capacity tb now hhi
  have hnn := refilledLevel_nonneg tb now hrate hlo hhi hnow
  rw [TokenBucket.allow_eq]
  by_cases h : 1 ≤ refilledLevel tb now
  · rw [if_pos h]
    refine ⟨?_, ?_, rfl, rfl, rfl⟩
    · show (0 : Rat) ≤ refilledLevel tb now - 1
      linarith
    · show refilledLevel tb now - 1 ≤ tb.capacity
      linarith
  · rw [if_neg h]
    exact ⟨hnn, hcap, rfl, rfl, rfl⟩

/-- Every state in an `Allow` trace with non-decreasing call times keeps
the level within [0, capacity]. -/
theorem allowTrace_bounds :
    ∀ (times : List Rat) (tb : TokenBucket), 0 ≤ tb.rate → 0 ≤ tb.tokens →
      tb.tokens ≤ tb.capacity → List.Chain (· ≤ ·) tb.lastRefill times →
      ∀ s ∈ allowTrace tb times, 0 ≤ s.1.tokens ∧ s.1.tokens ≤ s.1.capacity := by
  intro times
  induction times with
  | nil => intro tb _ _ _ _ s hs; simp [allowTrace] at hs
  | cons t ts ih =>
    intro tb hrate hlo hhi hchain s hs
    rw [List.chain_cons] at hchain
    obtain ⟨hle, hchain'⟩ := hchain
    obtain ⟨h0, h1, hcap, hr, hlast⟩ := tb.allow_preserves t hrate hlo hhi hle
    simp only [allowTrace, List.mem_cons] at hs
    rcases hs with h | h
    · subst h
      exact ⟨h0, h1⟩
    · exact ih (tb.allow t).1 (by rw [hr]; exact hrate) h0 (by rw [hcap] at h1; rw [hcap]; exact h1)
        (by rw [hlast]; exact hchain') s h

/-- `Wait` only ever returns through a successful `Allow` at its return
time. -/
theorem wait_returns_after_allow :
    ∀ (ts : List Rat) (tb tb1 : TokenBucket) (t : Rat),
      tb.wait ts = some (tb1, t) → ∃ tb0 : TokenBucket, tb0.allow t = (tb1, true) := by
  intro ts
  induction ts with
  | nil => intro tb tb1 t h; simp [TokenBucket.wait] at h
  | cons t0 ts ih =>
    intro tb tb1 t h
    unfold TokenBucket.wait at h
    by_cases hb : (tb.allow t0).2
    · rw [if_pos hb] at h
      simp only [Option.some.injEq, Prod.mk.injEq] at h
      refine ⟨tb, ?_⟩
      rw [← h.2, ← h.1]
      exact Prod.ext rfl hb
    · rw [if_neg hb] at h
      exact ih (tb.allow t0).1 tb1 t h

/-- C9: over any sequence of Allow calls at non-decreasing times the
observable token level stays within [0, capacity]; the lazy refill is
capped at capacity; a token is deducted exactly when at least one full
token is available after refill (Allow returns false, leaving the
refilled level in place, rather than going negative); and Wait returns
only through a successful Allow at its return time. -/
theorem tokenBucket_level_bounds (tb : TokenBucket) (times : List Rat)
    (hrate : 0 ≤ tb.rate) (hlo : 0 ≤ tb.tokens) (hhi : tb.tokens ≤ tb.capacity)
    (hchain : List.Chain (· ≤ ·) tb.lastRefill times) :
    (∀ s ∈ allowTrace tb times, 0 ≤ s.1.tokens ∧ s.1.tokens ≤ s.1.capacity)
    ∧ (∀ (tb' : TokenBucket) (now : Rat), tb'.tokens ≤ tb'.capacity →
        refilledLevel tb' now ≤ tb'.capacity)
    ∧ (∀ (tb' : TokenBucket) (now : Rat),
        ((tb'.allow now).2 = true →
          1 ≤ refilledLevel tb' now
          ∧ (tb'.allow now).1.tokens = refilledLevel tb' now - 1)
        ∧ ((tb'.allow now).2 = false →
          refilledLevel tb' now < 1
          ∧ (tb'.allow now).1.tokens = refilledLevel tb' now))
    ∧ (∀ (ts : List Rat) (tb0 tb1 : TokenBucket) (t : Rat),
        tb0.wait ts = some (tb1, t) →
          ∃ tbPre : TokenBucket, tbPre.allow t = (tb1, true)) := by
  refine ⟨allowTrace_bounds times tb hrate hlo hhi hchain,
    fun tb' now h => refilledLevel_le_capacity tb' now h, ?_, wait_returns_after_allow⟩
  intro tb' now
  rw [TokenBucket.allow_eq]
  by_cases h : 1 ≤ refilledLevel tb' now
  · rw [if_pos h]
    exact ⟨fun _ => ⟨h, rfl⟩, fun hfalse => by simp at hfalse⟩
  · rw [if_neg h]
    exact ⟨fun htrue => by simp at htrue, fun _ => ⟨not_le.mp h, rfl⟩⟩

/-- Witness for C9 at a fresh two-token limiter polled three times at
time zero: two grants, then a refusal, level never outside [0, 2]. -/
theorem tokenBucket_level_bounds_witness :
    (0 : Rat) ≤ (newLimiter 2 1 0).rate
    ∧ ((∀ s ∈ allowTrace (newLimiter 2 1 0) [0, 0, 0],
          0 ≤ s.1.tokens ∧ s.1.tokens ≤ s.1.capacity)
      ∧ (∀ (tb' : TokenBucket) (now : Rat), tb'.tokens ≤ tb'.capacity →
          refilledLevel tb' now ≤ tb'.capacity)
      ∧ (∀ (tb' : TokenBucket) (now : Rat),
          ((tb'.allow now).2 = true →
            1 ≤ refilledLevel tb' now
            ∧ (tb'.allow now).1.tokens = refilledLevel tb' now - 1)
          ∧ ((tb'.allow now).2 = false →
            refilledLevel tb' now < 1
            ∧ (tb'.allow now).1.tokens = refilledLevel tb' now))
      ∧ (∀ (ts : List Rat) (tb0 tb1 : TokenBucket) (t : Rat),
          tb0.wait ts = some (tb1, t) →
            ∃ tbPre : TokenBucket, tbPre.allow t = (tb1, true))) :=
  ⟨by norm_num [newLimiter],
    tokenBucket_level_bounds (newLimiter 2 1 0) [0, 0, 0]
      (by norm_num [newLimiter]) (by norm_num [newLimiter])
      (by norm_num [newLimiter]) (by simp [List.chain_cons, newLimiter])⟩

/-- String concatenation is associative. -/
theorem strAppend_assoc (a b c : String) : a ++ b ++ c = a ++ (b ++ c) := by
  apply String.ext
  simp

/-- The OpenRouter decode loop factors through empty accumulators. -/
theorem orStreamLoop_factor :
    ∀ (ls : List ORLine) (acc : String) (cbs : List String),
      orStreamLoop acc cbs ls
        = (cbs ++ (orStreamLoop "" [] ls).1, acc ++ (orStreamLoop "" [] ls).2) := by
  intro ls
  induction ls with
  | nil => intro acc cbs; simp [orStreamLoop]
  | cons l ls ih =>
    intro acc cbs
    cases l with
    | noData => simpa [orStreamLoop] using ih acc cbs
    | doneSentinel => simp [orStreamLoop]
    | malformed => simpa [orStreamLoop] using ih acc cbs
    | chunk cs =>
      cases cs with
      | nil => simpa [orStreamLoop] using ih acc cbs
      | cons c rest =>
        simp only [orStreamLoop, List.nil_append, String.empty_append]
        rw [ih (acc ++ c) (cbs ++ [c]), ih c [c]]
        simp [strAppend_assoc]

/-- Concatenating the OpenRouter loop's delivered chunks gives its
accumulated content. -/
theorem orStreamLoop_join :
    ∀ ls : List ORLine,
      strJoin (orStreamLoop "" [] ls).1 = (orStreamLoop "" [] ls).2 := by
  intro ls
  induction ls with
  | nil => simp [orStreamLoop, strJoin]
  | cons l ls ih =>
    cases l with
    | noData => simpa [orStreamLoop] using ih
    | doneSentinel => simp [orStreamLoop, strJoin]
    | malformed => simpa [orStreamLoop] using ih
    | chunk cs =>
      cases cs with
      | nil => simpa [orStreamLoop] using ih
      | cons c rest =>
        simp only [orStreamLoop]
        rw [orStreamLoop_factor ls ("" ++ c) ([] ++ [c])]
        simp [strJoin, ih]

/-- A malformed line anywhere in an OpenRouter stream is skipped without
changing the decode. -/
theorem orStreamLoop_skip :
    ∀ (pre suf : List ORLine) (acc : String) (cbs : List String),
      orStreamLoop acc cbs (pre ++ ORLine.malformed :: suf)
        = orStreamLoop acc cbs (pre ++ suf) := by
  intro pre
  induction pre with
  | nil => intro suf acc cbs; simp [orStreamLoop]
  | cons l pre ih =>
    intro suf acc cbs
    cases l with
    | noData => simpa [orStreamLoop] using ih suf acc cbs
    | doneSentinel => simp [orStreamLoop]
    | malformed => simpa [orStreamLoop] using ih suf acc cbs
    | chunk cs =>
      cases cs with
      | nil => simpa [orStreamLoop] using ih suf acc cbs
      | cons c rest => simpa [orStreamLoop] using ih suf (acc ++ c) (cbs ++ [c])

/-- The Ollama decode loop factors through empty accumulators. -/
theorem ollamaStreamLoop_factor :
    ∀ (ls : List OllamaLine) (acc : String) (cbs : List String),
      ollamaStreamLoop acc cbs ls
        = (cbs ++ (ollamaStreamLoop "" [] ls).1,
           acc ++ (ollamaStreamLoop "" [] ls).2.1,
           (ollamaStreamLoop "" [] ls).2.2.1,
           (ollamaStreamLoop "" [] ls).2.2.2) := by
  intro ls
  induction ls with
  | nil => intro acc cbs; simp [ollamaStreamLoop]
  | cons l ls ih =>
    intro acc cbs
    cases l with
    | malformed => simpa [ollamaStreamLoop] using ih acc cbs
    | chunk c d pe ec =>
      by_cases hc : c = ""
      · cases d with
        | true => simp [ollamaStreamLoop, hc]
        | false => simpa [ollamaStreamLoop, hc] using ih acc cbs
      · cases d with
        | true => simp [ollamaStreamLoop, hc]
        | false =>
          simp only [ollamaStreamLoop, if_pos hc, ne_eq, hc, not_false_eq_true,
            if_true, Bool.false_eq_true, if_false, List.nil_append, String.empty_append]
          rw [ih (acc ++ c) (cbs ++ [c]), ih c [c]]
          simp [strAppend_assoc]

/-- Concatenating the Ollama loop's delivered chunks gives its
accumulated content. -/
theorem ollamaStreamLoop_join :
    ∀ ls : List OllamaLine,
      strJoin (ollamaStreamLoop "" [] ls).1 = (ollamaStreamLoop "" [] ls).2.1 := by
  intro ls
  induction ls with
  | nil => simp [ollamaStreamLoop, strJoin]
  | cons l ls ih =>
    cases l with
    | malformed => simpa [ollamaStreamLoop] using ih
    | chunk c d pe ec =>
      by_cases hc : c = ""
      · cases d with
        | true => simp [ollamaStreamLoop, hc, strJoin]
        | false => simpa [ollamaStreamLoop, hc] using ih
      · cases d with
        | true => simp [ollamaStreamLoop, hc, strJoin]
        | false =>
          simp only [ollamaStreamLoop, ne_eq, hc, not_false_eq_true, if_true,
            Bool.false_eq_true, if_false, List.nil_append, String.empty_append]
          rw [ollamaStreamLoop_factor ls c [c]]
          simp [strJoin, ih]

/-- A malformed line anywhere in an Ollama stream is skipped without
changing the decode. -/
theorem ollamaStreamLoop_skip :
    ∀ (pre suf : List OllamaLine) (acc : String) (cbs : List String),
      ollamaStreamLoop acc cbs (pre ++ OllamaLine.malformed :: suf)
        = ollamaStreamLoop acc cbs (pre ++ suf) := by
  intro pre
  induction pre with
  | nil => intro suf acc cbs; simp [ollamaStreamLoop]
  | cons l pre ih =>
    intro suf acc cbs
    cases l with
    | malformed => simpa [ollamaStreamLoop] using ih suf acc cbs
    | chunk c d pe ec =>
      by_cases hc : c = ""
      · cases d with
        | true => simp [ollamaStreamLoop, hc]
        | false => simpa [ollamaStreamLoop, hc] using ih suf acc cbs
      · cases d with
        | true => simp [ollamaStreamLoop, hc]
        | false => simpa [ollamaStreamLoop, hc] using ih suf (acc ++ c) (cbs ++ [c])

/-- The Anthropic decode loop factors through empty accumulators. -/
theorem anthStreamLoop_factor :
    ∀ (ls : List AnthLine) (acc : String) (cbs : List String),
      anthStreamLoop acc cbs ls
        = (cbs ++ (anthStreamLoop "" [] ls).1, acc ++ (anthStreamLoop "" [] ls).2) := by
  intro ls
  induction ls with
  | nil => intro acc cbs; simp [anthStreamLoop]
  | cons l ls ih =>
    intro acc cbs
    cases l with
    | noData => simpa [anthStreamLoop] using ih acc cbs
    | malformed => simpa [anthStreamLoop] using ih acc cbs
    | event ty dt tx =>
      by_cases h1 : ty = "content_block_delta" ∧ dt = "text_delta"
      · by_cases h2 : ty = "message_stop"
        · exact absurd (h1.1.symm.trans h2) (by decide)
        · simp only [anthStreamLoop, if_pos h1, if_neg h2, List.nil_append,
            String.empty_append]
          rw [ih (acc ++ tx) (cbs ++ [tx]), ih tx [tx]]
          simp [strAppend_assoc]
      · by_cases h2 : ty = "message_stop"
        · simp [anthStreamLoop, h1, h2]
        · simpa [anthStreamLoop, h1, h2] using ih acc cbs

/-- Concatenating the Anthropic loop's delivered chunks gives its
accumulated content. -/
theorem anthStreamLoop_join :
    ∀ ls : List AnthLine,
      strJoin (anthStreamLoop "" [] ls).1 = (anthStreamLoop "" [] ls).2 := by
  intro ls
  induction ls with
  | nil => simp [anthStreamLoop, strJoin]
  | cons l ls ih =>
    cases l with
    | noData => simpa [anthStreamLoop] using ih
    | malformed => simpa [anthStreamLoop] using ih
    | event ty dt tx =>
      by_cases h1 : ty = "content_block_delta" ∧ dt = "text_delta"
      · by_cases h2 : ty = "message_stop"
        · exact absurd (h1.1.symm.trans h2) (by decide)
        · simp only [anthStreamLoop, if_pos h1, if_neg h2, List.nil_append,
            String.empty_append]
          rw [anthStreamLoop_factor ls tx [tx]]
          simp [strJoin, ih]
      · by_cases h2 : ty = "message_stop"
        · simp [anthStreamLoop, h1, h2, strJoin]
        · simpa [anthStreamLoop, h1, h2] using ih

/-- A malformed line anywhere in an Anthropic stream is skipped without
changing the decode. -/
theorem anthStreamLoop_skip :
    ∀ (pre suf : List AnthLine) (acc : String) (cbs : List String),
      anthStreamLoop acc cbs (pre ++ AnthLine.malformed :: suf)
        = anthStreamLoop acc cbs (pre ++ suf) := by
  intro pre
  induction pre with
  | nil => intro suf acc cbs; simp [anthStreamLoop]
  | cons l pre ih =>
    intro suf acc cbs
    cases l with
    | noData => simpa [anthStreamLoop] using ih suf acc cbs
    | malformed => simpa [anthStreamLoop] using ih suf acc cbs
    | event ty dt tx =>
      by_cases h1 : ty = "content_block_delta" ∧ dt = "text_delta"
      · by_cases h2 : ty = "message_stop"
        · exact absurd (h1.1.symm.trans h2) (by decide)
        · simpa [anthStreamLoop, h1, h2] using ih suf (acc ++ tx) (cbs ++ [tx])
      · by_cases h2 : ty = "message_stop"
        · simp [anthStreamLoop, h1, h2]
        · simpa [anthStreamLoop, h1, h2] using ih suf acc cbs

/-- C3: for each streaming decoder (OpenRouter SSE with a [DONE]
sentinel, Ollama newline-delimited JSON with a done flag, Anthropic
event-typed SSE) and for every input line stream, the concatenation, in
delivery order, of the chunks passed to the callback equals the Content
field of the final ProviderResponse, and a line that fails to parse as
the expected envelope is skipped without affecting the decode. -/
theorem streaming_concat_and_skip :
    (∀ lines : List ORLine,
        strJoin (orSendStream lines).1 = (orSendStream lines).2.content)
    ∧ (∀ pre suf : List ORLine,
        orSendStream (pre ++ ORLine.malformed :: suf) = orSendStream (pre ++ suf))
    ∧ (∀ lines : List OllamaLine,
        strJoin (ollamaSendStream lines).1 = (ollamaSendStream lines).2.content)
    ∧ (∀ pre suf : List OllamaLine,
        ollamaSendStream (pre ++ OllamaLine.malformed :: suf)
          = ollamaSendStream (pre ++ suf))
    ∧ (∀ lines : List AnthLine,
        strJoin (anthSendStream lines).1 = (anthSendStream lines).2.content)
    ∧ (∀ pre suf : List AnthLine,
        anthSendStream (pre ++ AnthLine.malformed :: suf)
          = anthSendStream (pre ++ suf)) := by
  refine ⟨fun lines => orStreamLoop_join lines,
    fun pre suf => ?_,
    fun lines => ollamaStreamLoop_join lines,
    fun pre suf => ?_,
    fun lines => anthStreamLoop_join lines,
    fun pre suf => ?_⟩
  · unfold orSendStream
    rw [orStreamLoop_skip pre suf "" []]
  · unfold ollamaSendStream
    rw [ollamaStreamLoop_skip pre suf "" []]
  · unfold anthSendStream
    rw [anthStreamLoop_skip pre suf "" []]

/-- Every failing model's error appears in `errLog`. -/
theorem errLog_mem (call : String → Except GoError ProviderResponse) :
    ∀ (ms : List String) (m : String) (e : GoError),
      m ∈ ms → call m = .error e → (m, e) ∈ errLog call ms := by
  intro ms
  induction ms with
  | nil => intro m e hm _; simp at hm
  | cons m0 ms ih =>
    intro m e hm he
    rcases List.mem_cons.mp hm with rfl | hm'
    · rw [errLog, he]
      exact List.mem_cons_self _ _
    · rw [errLog]
      cases h0 : call m0 with
      | ok _ => exact ih m e hm' he
      | error e0 => exact List.mem_cons_of_mem _ (ih m e hm' he)

/-- Conversely, `errLog` only lists actual failures. -/
theorem errLog_sound (call : String → Except GoError ProviderResponse) :
    ∀ (ms : List String) (p : String × GoError),
      p ∈ errLog call ms → call p.1 = .error p.2 := by
  intro ms
  induction ms with
  | nil => intro p hp; simp [errLog] at hp
  | cons m0 ms ih =>
    intro p hp
    rw [errLog] at hp
    cases h0 : call m0 with
    | ok r => rw [h0] at hp; exact ih p hp
    | error e0 =>
      rw [h0] at hp
      rcases List.mem_cons.mp hp with rfl | hp'
      · exact h0
      · exact ih p hp'

/-- Running the fallback loop over a prefix of failing models followed by
a succeeding one. -/
theorem swmLoop_first_success (call : String → Except GoError ProviderResponse) :
    ∀ (pre : List String) (ms : List String) (m : String) (r : ProviderResponse)
      (lastErr : Option GoError) (log : List (String × GoError)),
      (∀ m' ∈ pre, ∃ e, call m' = .error e) → call m = .ok r →
      ∃ le, swmLoop call (pre ++ m :: ms) lastErr log
        = (some (m, r), le, log ++ errLog call pre) := by
  intro pre
  induction pre with
  | nil =>
    intro ms m r lastErr log _ hm
    refine ⟨lastErr, ?_⟩
    simp only [List.nil_append, swmLoop, hm, errLog, List.append_nil]
  | cons m0 pre ih =>
    intro ms m r lastErr log hpre hm
    obtain ⟨e0, he0⟩ := hpre m0 (List.mem_cons_self _ _)
    obtain ⟨le, hle⟩ := ih ms m r (some e0) (log ++ [(m0, e0)])
      (fun m' hm' => hpre m' (List.mem_cons_of_mem _ hm')) hm
    refine ⟨le, ?_⟩
    have hstep : swmLoop call ((m0 :: pre) ++ m :: ms) lastErr log
        = swmLoop call (pre ++ m :: ms) (some e0) (log ++ [(m0, e0)]) := by
      rw [List.cons_append]
      simp [swmLoop, he0]
    rw [hstep, hle, errLog, he0]
    simp

/-- Running the fallback loop when every model fails: the last error wins
and every failure is logged. -/
theorem swmLoop_all_fail (call : String → Except GoError ProviderResponse) :
    ∀ (ms : List String) (hne : ms ≠ []) (lastErr : Option GoError)
      (log : List (String × GoError)) (elast : GoError),
      (∀ m ∈ ms, ∃ e, call m = .error e) →
      call (ms.getLast hne) = .error elast →
      swmLoop call ms lastErr log = (none, some elast, log ++ errLog call ms) := by
  intro ms
  induction ms with
  | nil => intro hne; exact absurd rfl hne
  | cons m0 ms ih =>
    intro hne lastErr log elast hfail hlast
    obtain ⟨e0, he0⟩ := hfail m0 (List.mem_cons_self _ _)
    cases ms with
    | nil =>
      have hm0 : call m0 = .error elast := by simpa using hlast
      simp [swmLoop, hm0, errLog]
    | cons m1 ms1 =>
      have hlast' : call ((m1 :: ms1).getLast (by simp)) = .error elast := by
        have hgl : (m1 :: ms1).getLast (by simp) = (m0 :: m1 :: ms1).getLast hne := by
          simp [List.getLast_cons]
        rw [hgl]
        exact hlast
      have hstep : swmLoop call (m0 :: m1 :: ms1) lastErr log
          = swmLoop call (m1 :: ms1) (some e0) (log ++ [(m0, e0)]) := by
        simp [swmLoop, he0]
      have herr : errLog call (m0 :: m1 :: ms1) = (m0, e0) :: errLog call (m1 :: ms1) := by
        simp [errLog, he0]
      rw [hstep,
        ih (by simp) (some e0) (log ++ [(m0, e0)]) elast
          (fun m hm => hfail m (List.mem_cons_of_mem _ hm)) hlast',
        herr]
      simp

/-- C4: SendWithMeta tries the models of `primary :: fallbacks` in order
with the same message history; the first model whose call succeeds
determines the returned content and the reported Model field, with every
earlier failure logged through the OnError hooks; when every model fails,
the surfaced error is the last model's and every model's error (the
earlier ones included) remains inspectable in the hook log. -/
theorem sendWithMeta_fallback (primary : String) (fallbacks : List String)
    (call : String → Except GoError ProviderResponse) :
    (∀ (pre post : List String) (m : String) (r : ProviderResponse),
        primary :: fallbacks = pre ++ m :: post →
        (∀ m' ∈ pre, ∃ e, call m' = .error e) → call m = .ok r →
        (sendWithMeta primary fallbacks call).1
          = { content := r.content, error := none, model := m, tokens := r.totalTokens }
        ∧ (sendWithMeta primary fallbacks call).2 = errLog call pre)
    ∧ (∀ elast : GoError,
        (∀ m ∈ primary :: fallbacks, ∃ e, call m = .error e) →
        call ((primary :: fallbacks).getLast (List.cons_ne_nil _ _)) = .error elast →
        (sendWithMeta primary fallbacks call).1
          = { content := "", error := some elast, model := primary, tokens := 0 }
        ∧ (sendWithMeta primary fallbacks call).2 = errLog call (primary :: fallbacks)
        ∧ (∀ p ∈ (sendWithMeta primary fallbacks call).2, call p.1 = .error p.2)
        ∧ (∀ (m : String) (e : GoError), m ∈ primary :: fallbacks →
            call m = .error e → (m, e) ∈ (sendWithMeta primary fallbacks call).2)) := by
  constructor
  · intro pre post m r hsplit hpre hm
    obtain ⟨le, hle⟩ := swmLoop_first_success call pre post m r none [] hpre hm
    unfold sendWithMeta
    rw [hsplit, hle]
    simp
  · intro elast hfail hlast
    have hle := swmLoop_all_fail call (primary :: fallbacks) (List.cons_ne_nil _ _)
      none [] elast hfail hlast
    unfold sendWithMeta
    rw [hle]
    simp only [List.nil_append]
    refine ⟨trivial, trivial, ?_, ?_⟩
    · intro p hp
      exact errLog_sound call _ p hp
    · intro m e hm he
      exact errLog_mem call _ m e hm he

/-- Witness for C4 at the scenario with fallback list [A, B], A failing
terminally and B succeeding: the result reports model B and its content,
and A's failure sits in the hook log rather than being surfaced. -/
theorem sendWithMeta_fallback_witness :
    fallbackDemoCall "B"
      = .ok { content := "hi from B", promptTokens := 0, completionTokens := 0,
              totalTokens := 7 }
    ∧ ((sendWithMeta "A" ["B"] fallbackDemoCall).1
        = { content := "hi from B", error := none, model := "B", tokens := 7 }
      ∧ (sendWithMeta "A" ["B"] fallbackDemoCall).2 = errLog fallbackDemoCall ["A"]) :=
  ⟨rfl,
    (sendWithMeta_fallback "A" ["B"] fallbackDemoCall).1 ["A"] [] "B"
      { content := "hi from B", promptTokens := 0, completionTokens := 0, totalTokens := 7 }
      rfl
      (fun m' hm' => ⟨⟨"A down", none⟩, by
        rcases List.mem_singleton.mp hm' with rfl
        rfl⟩)
      rfl⟩

/-- C7: the cache key is a pure function of exactly (model, messages,
temperature, reasoning level); with caching enabled, once a call through
the cache layer has returned content successfully, an identical second
call returns the same content without invoking the provider adapter. -/
theorem cache_layer_idempotent (st : CacheState)
    (provider : String → List Message → SendOptions → Except GoError ProviderResponse)
    (model : String) (messages : List Message) (opt : SendOptions) (c : String)
    (henabled : st.enabled = true)
    (h1 : (send st provider model messages opt).1 = .ok c) :
    (send (send st provider model messages opt).2.1 provider model messages opt).1
      = .ok c
    ∧ (send (send st provider model messages opt).2.1 provider model messages opt).2.2
      = 0
    ∧ (∀ (m : String) (msgs : List Message) (o o' : SendOptions),
        o.temperature = o'.temperature → o.thinking = o'.thinking →
        cacheKey m msgs o = cacheKey m msgs o') := by
  have hkey : ∀ (m : String) (msgs : List Message) (o o' : SendOptions),
      o.temperature = o'.temperature → o.thinking = o'.thinking →
      cacheKey m msgs o = cacheKey m msgs o' := by
    intro m msgs o o' ht hth
    unfold cacheKey
    rw [ht, hth]
  cases hget : getCached st model messages opt with
  | some cached =>
    have hsend : send st provider model messages opt = (.ok cached, st, 0) := by
      unfold send
      rw [hget]
    rw [hsend] at h1 ⊢
    simp only at h1 ⊢
    have hc : cached = c := by
      cases h1
      rfl
    subst hc
    refine ⟨?_, ?_, hkey⟩
    · show (send st provider model messages opt).1 = .ok cached
      rw [hsend]
    · show (send st provider model messages opt).2.2 = 0
      rw [hsend]
  | none =>
    cases hprov : provider model messages opt with
    | error e =>
      have hsend : send st provider model messages opt = (.error e, st, 1) := by
        unfold send
        rw [hget, hprov]
      rw [hsend] at h1
      simp at h1
    | ok resp =>
      have hsend : send st provider model messages opt
          = (.ok resp.content,
             setCached st model messages opt resp.content, 1) := by
        unfold send
        rw [hget, hprov]
      rw [hsend] at h1
      simp only [Except.ok.injEq] at h1
      subst h1
      have hset : setCached st model messages opt resp.content
          = { st with entries :=
                (cacheKey model messages opt, resp.content) :: st.entries } := by
        unfold setCached
        rw [henabled]
        simp
      have hget2 : getCached (setCached st model messages opt resp.content)
          model messages opt = some resp.content := by
        rw [hset]
        unfold getCached lookupCache
        rw [henabled]
        simp
      have hsend2 : send (setCached st model messages opt resp.content)
          provider model messages opt
          = (.ok resp.content, setCached st model messages opt resp.content, 0) := by
        unfold send
        rw [hget2]
      rw [hsend]
      simp only
      rw [hsend2]
      exact ⟨rfl, rfl, hkey⟩

/-- Witness for C7: a fresh enabled cache and a provider answering
"hello" — the second identical call returns "hello" from the cache with
zero provider invocations. -/
theorem cache_layer_idempotent_witness :
    (send ⟨true, []⟩ cacheDemoProvider "m" [] ⟨none, ""⟩).1 = .ok "hello"
    ∧ ((send (send ⟨true, []⟩ cacheDemoProvider "m" [] ⟨none, ""⟩).2.1
          cacheDemoProvider "m" [] ⟨none, ""⟩).1 = .ok "hello"
      ∧ (send (send ⟨true, []⟩ cacheDemoProvider "m" [] ⟨none, ""⟩).2.1
          cacheDemoProvider "m" [] ⟨none, ""⟩).2.2 = 0
      ∧ (∀ (m : String) (msgs : List Message) (o o' : SendOptions),
          o.temperature = o'.temperature → o.thinking = o'.thinking →
          cacheKey m msgs o = cacheKey m msgs o')) :=
  ⟨rfl, cache_layer_idempotent ⟨true, []⟩ cacheDemoProvider "m" [] ⟨none, ""⟩ "hello"
    rfl rfl⟩

/-- C5 (at the failing schedule): a stop-on-error batch of two operations
in which operation 0 fails and operation 1's goroutine observes the stop
flag before acquiring a permit is a realizable schedule, yet operation
1's result slot is left as the zero BatchResult — its Error field is nil
rather than its own error or the cancellation error. -/
theorem batch_stoponerror_zero_slot :
    scheduleValid true
      [("m0", OpFate.ran ⟨"", some ⟨"boom", none⟩, "m0", 0⟩),
       ("m1", OpFate.sawStopped)]
    ∧ batchDo
        [("m0", OpFate.ran ⟨"", some ⟨"boom", none⟩, "m0", 0⟩),
         ("m1", OpFate.sawStopped)]
      = [⟨0, "", some ⟨"boom", none⟩, "m0", 0⟩, zeroBatchResult]
    ∧ zeroBatchResult.error = none := by
  refine ⟨?_, rfl, rfl⟩
  intro p hp hd
  rcases List.mem_cons.mp hp with rfl | hp'
  · rcases hd with h | ⟨e, h⟩ <;> simp at h
  · refine ⟨rfl, ("m0", OpFate.ran ⟨"", some ⟨"boom", none⟩, "m0", 0⟩),
      List.mem_cons_self _ _, ⟨"", some ⟨"boom", none⟩, "m0", 0⟩, rfl, by simp⟩

/-- C6 (at the failing schedule): in the same kind of stop-on-error
schedule the results slice still has length 2, but the slot at position 1
is the zero BatchResult, whose Index field is 0, not 1 — it does not
correspond to the 1st submitted operation. -/
theorem batch_index_mismatch :
    (batchDo
        [("mA", OpFate.ran ⟨"", some ⟨"A failed", none⟩, "mA", 0⟩),
         ("mB", OpFate.sawStopped)]).length = 2
    ∧ scheduleValid true
        [("mA", OpFate.ran ⟨"", some ⟨"A failed", none⟩, "mA", 0⟩),
         ("mB", OpFate.sawStopped)]
    ∧ (batchDo
        [("mA", OpFate.ran ⟨"", some ⟨"A failed", none⟩, "mA", 0⟩),
         ("mB", OpFate.sawStopped)]).getD 1 zeroBatchResult = zeroBatchResult
    ∧ zeroBatchResult.index = 0
    ∧ (1 : Int) ≠ 0 := by
  refine ⟨rfl, ?_, rfl, rfl, by decide⟩
  intro p hp hd
  rcases List.mem_cons.mp hp with rfl | hp'
  · rcases hd with h | ⟨e, h⟩ <;> simp at h
  · refine ⟨rfl, ("mA", OpFate.ran ⟨"", some ⟨"A failed", none⟩, "mA", 0⟩),
      List.mem_cons_self _ _, ⟨"", some ⟨"A failed", none⟩, "mA", 0⟩, rfl, by simp⟩
